import Mathlib

/-!
Shallow embedding of the `fetch_repos` batch job (repository fetcher,
paginator, rate-limited client, SQLite storage layer and aggregator).

Each definition is translated from one place in the Python source:
  * `Db.*`          — `src/fetch_repos/db.py`
  * `Client.*`      — `src/fetch_repos/github_client.py`
  * `Agg.*`         — `src/fetch_repos/aggregator.py`
  * `MainMod.*`     — `src/fetch_repos/main.py`
-/

namespace Db

/-- The `license` sub-object of a raw API repository record
(`db.py`, `upsert_repositories`: `(r.get("license") or {}).get("name")`). -/
structure License where
  name : Option String
deriving DecidableEq

/-- A raw repository record, with exactly the fields that
`Database.upsert_repositories` (`db.py` lines 150-176) reads via `.get`.
Fields read with a plain `.get` are `Option`s (the SQL column is nullable);
the boolean flags are read with `1 if r.get(...) else 0`, so they are `Bool`
here.  The claims concern records that carry an identifier, so `id : Nat`. -/
structure RawRepo where
  id : Nat
  name : Option String
  full_name : Option String
  owner_login : Option String
  priv : Bool
  fork : Bool
  html_url : Option String
  description : Option String
  created_at : Option String
  updated_at : Option String
  pushed_at : Option String
  stargazers_count : Option Int
  watchers_count : Option Int
  forks_count : Option Int
  open_issues_count : Option Int
  language : Option String
  size : Option Int
  license : Option License
  archived : Bool
  disabled : Bool
deriving DecidableEq

/-- One row of the `repositories` table (`db.py` lines 76-97): the booleans
are stored as the integers 0/1, the license as its flattened name. -/
structure RepoRow where
  repo_id : Nat
  name : Option String
  full_name : Option String
  owner_login : Option String
  priv : Int
  fork : Int
  html_url : Option String
  description : Option String
  created_at : Option String
  updated_at : Option String
  pushed_at : Option String
  stargazers_count : Option Int
  watchers_count : Option Int
  forks_count : Option Int
  open_issues_count : Option Int
  language : Option String
  size : Option Int
  license : Option String
  archived : Int
  disabled : Int
deriving DecidableEq

/-- The tuple built for one record in `upsert_repositories` (`db.py`
lines 153-176). -/
def toRow (r : RawRepo) : RepoRow :=
  { repo_id := r.id
    name := r.name
    full_name := r.full_name
    owner_login := r.owner_login
    priv := if r.priv then 1 else 0
    fork := if r.fork then 1 else 0
    html_url := r.html_url
    description := r.description
    created_at := r.created_at
    updated_at := r.updated_at
    pushed_at := r.pushed_at
    stargazers_count := r.stargazers_count
    watchers_count := r.watchers_count
    forks_count := r.forks_count
    open_issues_count := r.open_issues_count
    language := r.language
    size := r.size
    license := match r.license with
      | none => none
      | some l => l.name
    archived := if r.archived then 1 else 0
    disabled := if r.disabled then 1 else 0 }

/-- The `ON CONFLICT(repo_id) DO UPDATE SET ...` clause (`db.py` lines
185-204): every column except the key `repo_id` is set from the excluded
(new) row. -/
def updateRow (old new : RepoRow) : RepoRow :=
  { repo_id := old.repo_id
    name := new.name
    full_name := new.full_name
    owner_login := new.owner_login
    priv := new.priv
    fork := new.fork
    html_url := new.html_url
    description := new.description
    created_at := new.created_at
    updated_at := new.updated_at
    pushed_at := new.pushed_at
    stargazers_count := new.stargazers_count
    watchers_count := new.watchers_count
    forks_count := new.forks_count
    open_issues_count := new.open_issues_count
    language := new.language
    size := new.size
    license := new.license
    archived := new.archived
    disabled := new.disabled }

/-- SQLite `INSERT ... ON CONFLICT(repo_id) DO UPDATE` for a single row:
if some stored row has the same primary key, that row is updated in place,
otherwise the new row is appended. -/
def upsertRepoRow (t : List RepoRow) (row : RepoRow) : List RepoRow :=
  if t.any (fun x => x.repo_id == row.repo_id) then
    t.map (fun x => if x.repo_id == row.repo_id then updateRow x row else x)
  else t ++ [row]

/-- `Database.upsert_repositories` (`db.py` lines 150-208): `executemany`
applies the single-row upsert to each record in order, inside one
transaction (which never fails on this statement when every record has an
identifier). -/
def upsert_repositories (repos : List RawRepo) (t : List RepoRow) : List RepoRow :=
  repos.foldl (fun acc r => upsertRepoRow acc (toRow r)) t

/-- Number of stored rows whose key is `rid` (`SELECT COUNT(*) ... WHERE repo_id = rid`). -/
def countId (t : List RepoRow) (rid : Nat) : Nat :=
  (t.filter (fun x => x.repo_id == rid)).length

/-- The stored row keyed by `rid`, if any. -/
def rowAt (t : List RepoRow) (rid : Nat) : Option RepoRow :=
  t.find? (fun x => x.repo_id == rid)

/-- The last record with identifier `rid` in a sequence of raw records. -/
def lastMatch (rid : Nat) : List RawRepo → Option RawRepo
  | [] => none
  | r :: rs =>
    match lastMatch rid rs with
    | some r' => some r'
    | none => if r.id == rid then some r else none

theorem updateRow_key (x row : RepoRow) : (updateRow x row).repo_id = x.repo_id := rfl

theorem updateRow_eq_of_key_eq (old new : RepoRow) (h : old.repo_id = new.repo_id) :
    updateRow old new = new := by
  cases new
  simp only [updateRow, h]

theorem countId_map_preserving (t : List RepoRow) (rid : Nat)
    (g : RepoRow → RepoRow) (hg : ∀ x, (g x).repo_id = x.repo_id) :
    countId (t.map g) rid = countId t rid := by
  induction t with
  | nil => rfl
  | cons x xs ih =>
    simp only [List.map_cons, countId, List.filter_cons, hg x] at *
    by_cases h : x.repo_id = rid
    · simp [h, ih]
    · simp [h, ih]

theorem countId_append_single (t : List RepoRow) (row : RepoRow) (rid : Nat) :
    countId (t ++ [row]) rid =
      countId t rid + (if row.repo_id = rid then 1 else 0) := by
  simp only [countId, List.filter_append, List.length_append]
  by_cases h : row.repo_id = rid
  · have hb : (row.repo_id == rid) = true := by simpa using h
    simp [List.filter_cons, hb, h]
  · have hb : (row.repo_id == rid) = false := by simpa using h
    simp [List.filter_cons, hb, h]

theorem countId_eq_zero_of_not_any (t : List RepoRow) (rid : Nat)
    (h : t.any (fun x => x.repo_id == rid) = false) :
    countId t rid = 0 := by
  induction t with
  | nil => rfl
  | cons x xs ih =>
    simp only [List.any_cons, Bool.or_eq_false_iff] at h
    simp only [countId, List.filter_cons]
    rw [h.1]
    exact ih h.2

theorem countId_upsert_le (t : List RepoRow) (row : RepoRow) (rid : Nat)
    (h : countId t rid ≤ 1) :
    countId (upsertRepoRow t row) rid ≤ 1 := by
  unfold upsertRepoRow
  by_cases hex : t.any (fun x => x.repo_id == row.repo_id)
  · rw [if_pos hex,
      countId_map_preserving t rid _ (fun x => by
        by_cases hx : x.repo_id = row.repo_id <;> simp [hx, updateRow])]
    exact h
  · rw [if_neg hex, countId_append_single]
    by_cases hk : row.repo_id = rid
    · have h0 : countId t rid = 0 := by
        rw [← hk]
        exact countId_eq_zero_of_not_any t row.repo_id (by simpa using hex)
      simp [h0, hk]
    · simp [hk]
      omega

theorem find_map_upd (row : RepoRow) :
    ∀ t : List RepoRow, t.any (fun x => x.repo_id == row.repo_id) = true →
      (t.map (fun x => if x.repo_id == row.repo_id then updateRow x row else x)).find?
        (fun x => x.repo_id == row.repo_id) = some row := by
  intro t
  induction t with
  | nil => intro h; simp at h
  | cons y ys ih =>
    intro h
    by_cases hy : y.repo_id = row.repo_id
    · have hb : (y.repo_id == row.repo_id) = true := by simpa using hy
      simp only [List.map_cons, hb, if_true]
      rw [List.find?_cons_of_pos _ (by simp [updateRow_key, hb]),
        updateRow_eq_of_key_eq y row hy]
    · have hb : (y.repo_id == row.repo_id) = false := by simpa using hy
      simp only [List.map_cons, hb, Bool.false_eq_true, if_false]
      rw [List.find?_cons_of_neg _ (by simp [hb])]
      apply ih
      simpa [hb] using h

theorem rowAt_upsert_same (t : List RepoRow) (row : RepoRow) :
    rowAt (upsertRepoRow t row) row.repo_id = some row := by
  unfold upsertRepoRow rowAt
  by_cases hex : t.any (fun x => x.repo_id == row.repo_id)
  · rw [if_pos hex]
    exact find_map_upd row t hex
  · rw [if_neg hex]
    rw [Bool.not_eq_true] at hex
    induction t with
    | nil => simp [List.find?]
    | cons y ys ih =>
      simp only [List.any_cons, Bool.or_eq_false_iff] at hex
      simp only [List.cons_append]
      rw [List.find?_cons_of_neg _ (by simp [hex.1])]
      exact ih hex.2

theorem rowAt_upsert_other (t : List RepoRow) (row : RepoRow) (rid : Nat)
    (h : row.repo_id ≠ rid) :
    rowAt (upsertRepoRow t row) rid = rowAt t rid := by
  unfold upsertRepoRow rowAt
  by_cases hex : t.any (fun x => x.repo_id == row.repo_id)
  · rw [if_pos hex]
    clear hex
    induction t with
    | nil => rfl
    | cons y ys ih =>
      simp only [List.map_cons]
      by_cases hy : y.repo_id = row.repo_id
      · have hb : (y.repo_id == row.repo_id) = true := by simpa using hy
        have hne : (y.repo_id == rid) = false := by
          simp only [beq_eq_false_iff_ne, ne_eq]
          rw [hy]; exact h
        simp only [hb, if_true]
        rw [List.find?_cons_of_neg _ (by simp [updateRow_key]; simpa using hne),
          List.find?_cons_of_neg _ (by simpa using hne)]
        exact ih
      · have hb : (y.repo_id == row.repo_id) = false := by simpa using hy
        simp only [hb, Bool.false_eq_true, if_false]
        cases hfind : (y.repo_id == rid) with
        | true =>
          rw [List.find?_cons_of_pos _ (by simpa using hfind),
            List.find?_cons_of_pos _ (by simpa using hfind)]
        | false =>
          rw [List.find?_cons_of_neg _ (by simp [hfind]),
            List.find?_cons_of_neg _ (by simp [hfind])]
          exact ih
  · rw [if_neg hex]
    induction t with
    | nil =>
      simp only [List.nil_append]
      rw [List.find?_cons_of_neg _ (by simpa using h)]
    | cons y ys ih =>
      simp only [Bool.not_eq_true, List.any_cons, Bool.or_eq_false_iff] at hex
      simp only [List.cons_append]
      cases hfind : (y.repo_id == rid) with
      | true =>
        rw [List.find?_cons_of_pos _ (by simpa using hfind),
          List.find?_cons_of_pos _ (by simpa using hfind)]
      | false =>
        rw [List.find?_cons_of_neg _ (by simp [hfind]),
          List.find?_cons_of_neg _ (by simp [hfind])]
        exact ih (by simp [hex.2])

theorem applyAll_characterization (rs : List RawRepo) :
    ∀ (t : List RepoRow) (rid : Nat), countId t rid ≤ 1 →
      countId (upsert_repositories rs t) rid ≤ 1 ∧
      rowAt (upsert_repositories rs t) rid =
        (match lastMatch rid rs with
          | some r => some (toRow r)
          | none => rowAt t rid) := by
  induction rs with
  | nil =>
    intro t rid h
    exact ⟨h, rfl⟩
  | cons r rs ih =>
    intro t rid h
    have step : upsert_repositories (r :: rs) t =
        upsert_repositories rs (upsertRepoRow t (toRow r)) := rfl
    have h1 : countId (upsertRepoRow t (toRow r)) rid ≤ 1 :=
      countId_upsert_le t (toRow r) rid h
    obtain ⟨hc, hf⟩ := ih (upsertRepoRow t (toRow r)) rid h1
    refine ⟨by rw [step]; exact hc, ?_⟩
    rw [step, hf]
    cases hlast : lastMatch rid rs with
    | some r' => simp [lastMatch, hlast]
    | none =>
      simp only [lastMatch, hlast]
      by_cases hr : r.id = rid
      · have hkey : (toRow r).repo_id = rid := hr
        have hb : (r.id == rid) = true := by simpa using hr
        simp only [hb, if_true]
        rw [← hkey]
        exact rowAt_upsert_same t (toRow r)
      · have hb : (r.id == rid) = false := by simpa using hr
        simp only [hb, Bool.false_eq_true, if_false]
        exact rowAt_upsert_other t (toRow r) rid (by simpa [toRow] using hr)


theorem foldl_calls_eq_join (calls : List (List RawRepo)) (t : List RepoRow) :
    calls.foldl (fun acc rs => upsert_repositories rs acc) t =
      upsert_repositories calls.flatten t := by
  induction calls generalizing t with
  | nil => rfl
  | cons c cs ih =>
    simp only [List.foldl_cons, List.flatten_cons]
    rw [ih]
    unfold upsert_repositories
    rw [List.foldl_append]

/-- C1: for every sequence of calls to `upsert_repositories` (starting from
the freshly created, empty `repositories` table) and every repository
identifier, the table holds at most one row for that identifier, and that
row carries exactly the column values extracted from the *last* record
upserted with that identifier (all mutable fields replaced); if no record
ever carried the identifier there is no row for it.  In particular
re-upserting a changed record replaces all mutable fields and never
creates a duplicate row. -/
theorem upsert_repositories_unique_latest (calls : List (List RawRepo)) (rid : Nat) :
    countId (calls.foldl (fun acc rs => upsert_repositories rs acc) []) rid ≤ 1 ∧
    (∀ r, lastMatch rid calls.flatten = some r →
      rowAt (calls.foldl (fun acc rs => upsert_repositories rs acc) []) rid =
        some (toRow r)) ∧
    (lastMatch rid calls.flatten = none →
      rowAt (calls.foldl (fun acc rs => upsert_repositories rs acc) []) rid = none) := by
  rw [foldl_calls_eq_join]
  have h0 : countId ([] : List RepoRow) rid ≤ 1 := by
    simp [countId]
  obtain ⟨hc, hf⟩ := applyAll_characterization calls.flatten [] rid h0
  refine ⟨hc, ?_, ?_⟩
  · intro r hr
    rw [hf, hr]
  · intro hr
    rw [hf, hr]
    rfl

/-- A concrete raw record (mirrors the first fixture in
`src/tests/test_aggregator.py`). -/
def rawA : RawRepo :=
  { id := 1, name := some "a", full_name := some "u/a", owner_login := some "u"
    priv := false, fork := false, html_url := some "", description := some ""
    created_at := some "2020-01-01T00:00:00Z", updated_at := some "2020-01-01T00:00:00Z"
    pushed_at := some "2020-01-01T00:00:00Z", stargazers_count := some 10
    watchers_count := some 10, forks_count := some 2, open_issues_count := some 1
    language := some "Python", size := some 100, license := some ⟨some "MIT"⟩
    archived := false, disabled := false }

/-- The same repository re-fetched later with changed mutable fields. -/
def rawB : RawRepo :=
  { rawA with stargazers_count := some 99, description := some "changed"
              pushed_at := some "2021-06-01T00:00:00Z", archived := true }

theorem upsert_repositories_unique_latest_witness :
    countId (([[rawA], [rawB]] : List (List RawRepo)).foldl
      (fun acc rs => upsert_repositories rs acc) []) 1 ≤ 1 ∧
    rowAt (([[rawA], [rawB]] : List (List RawRepo)).foldl
      (fun acc rs => upsert_repositories rs acc) []) 1 = some (toRow rawB) := by
  have h := upsert_repositories_unique_latest [[rawA], [rawB]] 1
  exact ⟨h.1, h.2.1 rawB (by decide)⟩

end Db

namespace Client

/-- One HTTP response as seen by `GitHubClient._request_json`
(`github_client.py` lines 37-57): the status, the two rate-limit headers
(`X-RateLimit-Remaining` as the raw header string, `X-RateLimit-Reset`
as the integer it parses to when present and truthy), and the parsed JSON
body (abstracted to an `Int`). -/
structure Resp where
  status : Nat
  remaining : Option String
  reset : Option Int
  body : Int
deriving DecidableEq

/-- Events of one `_request_json` call: semaphore acquisition/release
(`async with self.semaphore`), issuing the physical request (attempt
index and the current clock), an `asyncio.sleep`, and reading the
response body (`await resp.json()`). -/
inductive Ev where
  | acquire
  | send (attempt : Nat) (time : Int)
  | sleep (dur : Int)
  | readBody
  | release
deriving DecidableEq

/-- The result of `_request_json`: a parsed body, or the
`aiohttp.ClientResponseError` raised by `resp.raise_for_status()`
(which fires exactly when the status is 400 or higher). -/
inductive Outcome where
  | ok (body : Int) (time : Int)
  | httpError (status : Nat) (time : Int)
deriving DecidableEq

/-- The rate-limit branch guard (`github_client.py` lines 43-47):
status 403, `X-RateLimit-Remaining` equal to the exact string "0",
and a truthy `X-RateLimit-Reset` header. -/
def rlCond (r : Resp) : Bool :=
  r.status == 403 && r.remaining == some "0" && r.reset.isSome

/-- The transiently-retried statuses (`github_client.py` line 52). -/
def retrySet : List Nat := [429, 502, 503, 504]

/-- The retry loop of `_request_json` (`github_client.py` lines 39-57),
embedded with explicit fuel (the Python loop is `while True`), a clock
`now` (`int(time.time())`), the attempt counter `i` indexing the
environment of responses, and the current `backoff`.  Each loop iteration
acquires the semaphore, sends the request, and — inside the semaphore
scope — either sleeps and retries, raises for a status ≥ 400, or reads
the body and returns.  The trace records those events in order. -/
def run (env : Nat → Resp) : Nat → Int → Nat → Int → List Ev × Option Outcome
  | 0, _, _, _ => ([], none)
  | fuel+1, now, i, b =>
    let r := env i
    if rlCond r then
      -- sleep_for = max(0, reset_ts - int(time.time()) + 1); then `continue`
      let T := r.reset.getD 0
      let s := max 0 (T - now + 1)
      let rest := run env fuel (now + s) (i+1) b
      (.acquire :: .send i now :: .sleep s :: .release :: rest.1, rest.2)
    else if r.status ∈ retrySet then
      -- await asyncio.sleep(backoff); backoff = min(backoff * 2, 30)
      let rest := run env fuel (now + b) (i+1) (min (b * 2) 30)
      (.acquire :: .send i now :: .sleep b :: .release :: rest.1, rest.2)
    else if 400 ≤ r.status then
      -- resp.raise_for_status() raises; the `async with` blocks release on unwind
      ([.acquire, .send i now, .release], some (.httpError r.status now))
    else
      -- return await resp.json()
      ([.acquire, .send i now, .readBody, .release], some (.ok r.body now))

/-- `_request_json` proper: the loop starts with `backoff = 1.0` at
attempt 0. -/
def request_json (env : Nat → Resp) (fuel : Nat) (now : Int) :
    List Ev × Option Outcome :=
  run env fuel now 0 1

/-- The successive backoff sleep durations: 1 second, doubled each
retryable attempt, capped at 30 (`backoff = min(backoff * 2, 30)`). -/
def backoffSeq : Nat → Int
  | 0 => 1
  | k+1 => min (backoffSeq k * 2) 30

/-- The sleep durations recorded in a trace, in order. -/
def sleeps (tr : List Ev) : List Int :=
  tr.filterMap (fun e => match e with | .sleep d => some d | _ => none)

/-- A response that takes none of the special branches: not the
rate-limit 403 case, not a transient status, and below 400, so the body
is parsed and returned. -/
def plainOk (r : Resp) : Prop :=
  rlCond r = false ∧ r.status ∉ retrySet ∧ r.status < 400

instance (r : Resp) : Decidable (plainOk r) := by
  unfold plainOk
  infer_instance

theorem run_send_time_ge (env : Nat → Resp) :
    ∀ (fuel : Nat) (now : Int) (i : Nat) (b : Int), 0 ≤ b →
      ∀ j t, Ev.send j t ∈ (run env fuel now i b).1 → now ≤ t := by
  intro fuel
  induction fuel with
  | zero => intro now i b _ j t h; simp [run] at h
  | succ fuel ih =>
    intro now i b hb j t h
    rw [run] at h
    by_cases hrl : rlCond (env i)
    · simp only [hrl, if_true, List.mem_cons] at h
      have hs : (0:Int) ≤ max 0 ((env i).reset.getD 0 - now + 1) := le_max_left 0 _
      rcases h with h | h | h | h | h
      · simp at h
      · obtain ⟨h1, h2⟩ := Ev.send.injEq .. |>.mp h
        omega
      · simp at h
      · simp at h
      · have := ih (now + max 0 ((env i).reset.getD 0 - now + 1)) (i+1) b hb j t h
        omega
    · by_cases hretry : (env i).status ∈ retrySet
      · simp only [hrl, Bool.false_eq_true, if_false, hretry, if_true,
          List.mem_cons] at h
        rcases h with h | h | h | h | h
        · simp at h
        · obtain ⟨h1, h2⟩ := Ev.send.injEq .. |>.mp h
          omega
        · simp at h
        · simp at h
        · have hb2 : (0:Int) ≤ min (b * 2) 30 := by
            apply le_min <;> omega
          have := ih (now + b) (i+1) (min (b * 2) 30) hb2 j t h
          omega
      · by_cases h400 : 400 ≤ (env i).status
        · simp only [hrl, Bool.false_eq_true, if_false, hretry, h400, if_true,
            List.mem_cons] at h
          rcases h with h | h | h
          · simp at h
          · obtain ⟨h1, h2⟩ := Ev.send.injEq .. |>.mp h
            omega
          · simp at h
        · simp only [hrl, Bool.false_eq_true, if_false, hretry, h400,
            List.mem_cons] at h
          rcases h with h | h | h | h
          · simp at h
          · obtain ⟨h1, h2⟩ := Ev.send.injEq .. |>.mp h
            omega
          · simp at h
          · simp at h


theorem run_rl_progress (env : Nat → Resp) :
    ∀ (n i : Nat) (now b : Int),
      (∀ k, k < n → rlCond (env (i+k)) = true) → plainOk (env (i+n)) →
      ∃ t, (run env (n+1) now i b).2 = some (.ok (env (i+n)).body t) := by
  intro n
  induction n with
  | zero =>
    intro i now b _ hok
    rw [run]
    obtain ⟨h1, h2, h3⟩ := hok
    simp only [Nat.add_zero] at h1 h2 h3
    refine ⟨now, ?_⟩
    rw [if_neg (by simp [h1]), if_neg h2, if_neg (by omega)]
    simp
  | succ n ih =>
    intro i now b hrl hok
    rw [run]
    have h0 : rlCond (env i) = true := by
      have := hrl 0 (by omega)
      simpa using this
    simp only [h0, if_true]
    have hrl' : ∀ k, k < n → rlCond (env ((i+1)+k)) = true := by
      intro k hk
      have hx : (i+1)+k = i + (k+1) := by omega
      rw [hx]
      exact hrl (k+1) (by omega)
    have hok' : plainOk (env ((i+1)+n)) := by
      have hx : (i+1)+n = i + (n+1) := by omega
      rw [hx]
      exact hok
    have hidx : i + 1 + n = i + (n + 1) := by omega
    have := ih (i+1) (now + max 0 ((env i).reset.getD 0 - now + 1)) b hrl' hok'
    rw [hidx] at this
    exact this

/-- C3: on a 403 response whose `X-RateLimit-Remaining` header is exactly
"0" and whose `X-RateLimit-Reset` header carries timestamp `T`, the client
sleeps for `max 0 (T - now + 1)` seconds (until the reset instant plus a
one-second margin, floored at zero), every subsequent request is issued at
a time strictly past `T`, and the retry for this condition is uncapped:
any number of consecutive rate-limited responses followed by a successful
one still yields the successful body. -/
theorem rate_limit_sleep_and_unbounded_retry :
    (∀ (env : Nat → Resp) (fuel : Nat) (now : Int) (i : Nat) (b T : Int),
      (env i).status = 403 → (env i).remaining = some "0" → (env i).reset = some T →
      (run env (fuel+1) now i b).1 =
        .acquire :: .send i now :: .sleep (max 0 (T - now + 1)) :: .release ::
          (run env fuel (now + max 0 (T - now + 1)) (i+1) b).1 ∧
      (0 ≤ b → ∀ j t,
        Ev.send j t ∈ (run env fuel (now + max 0 (T - now + 1)) (i+1) b).1 → T < t)) ∧
    (∀ (n : Nat) (env : Nat → Resp) (now b : Int),
      (∀ k, k < n → rlCond (env k) = true) → plainOk (env n) →
      ∃ t, (run env (n+1) now 0 b).2 = some (.ok (env n).body t)) := by
  constructor
  · intro env fuel now i b T h403 hrem hres
    have hc : rlCond (env i) = true := by
      simp [rlCond, h403, hrem, hres]
    have hT : (env i).reset.getD 0 = T := by
      rw [hres]; rfl
    constructor
    · rw [run]
      simp only [hc, if_true, hT]
    · intro hb j t hmem
      have hstep := run_send_time_ge env fuel (now + max 0 (T - now + 1)) (i+1) b hb j t hmem
      have hmax : T - now + 1 ≤ max 0 (T - now + 1) := le_max_right 0 _
      omega
  · intro n env now b hrl hok
    have := run_rl_progress env n 0 now b (fun k hk => by simpa using hrl k hk) (by simpa using hok)
    simpa using this

/-- A concrete response environment: the first attempt is rate-limited with
reset timestamp 100, the second succeeds. -/
def envRL : Nat → Resp := fun k =>
  if k = 0 then { status := 403, remaining := some "0", reset := some 100, body := 0 }
  else { status := 200, remaining := none, reset := none, body := 42 }

theorem rate_limit_sleep_and_unbounded_retry_witness :
    ((100:Int) < 101) ∧
    ∃ t, (run envRL 2 0 0 1).2 = some (.ok 42 t) := by
  constructor
  · exact (rate_limit_sleep_and_unbounded_retry.1 envRL 1 0 0 1 100 rfl rfl rfl).2
      (by decide) 1 101 (by decide)
  · exact rate_limit_sleep_and_unbounded_retry.2 1 envRL 0 1
      (by decide) (by decide)


theorem rlCond_false_of_retry (r : Resp) (h : r.status ∈ retrySet) :
    rlCond r = false := by
  simp only [retrySet, List.mem_cons, List.not_mem_nil, or_false] at h
  rcases h with h | h | h | h
  · simp [rlCond, h]
  · simp [rlCond, h]
  · simp [rlCond, h]
  · simp [rlCond, h]

theorem run_backoff_sleeps (env : Nat → Resp) :
    ∀ (n i j : Nat) (now : Int),
      (∀ k, k < n → (env (i+k)).status ∈ retrySet) → plainOk (env (i+n)) →
      sleeps (run env (n+1) now i (backoffSeq j)).1 =
        (List.range n).map (fun k => backoffSeq (j+k)) ∧
      ∃ t, (run env (n+1) now i (backoffSeq j)).2 = some (.ok (env (i+n)).body t) := by
  intro n
  induction n with
  | zero =>
    intro i j now _ hok
    obtain ⟨h1, h2, h3⟩ := hok
    simp only [Nat.add_zero] at h1 h2 h3
    rw [run]
    rw [if_neg (by simp [h1]), if_neg h2, if_neg (by omega)]
    exact ⟨rfl, now, rfl⟩
  | succ n ih =>
    intro i j now hretry hok
    have h0 : (env i).status ∈ retrySet := by
      have := hretry 0 (by omega)
      simpa using this
    have hrl : rlCond (env i) = false := rlCond_false_of_retry _ h0
    rw [run]
    rw [if_neg (by simp [hrl]), if_pos h0]
    have hretry' : ∀ k, k < n → (env ((i+1)+k)).status ∈ retrySet := by
      intro k hk
      have hx : (i+1)+k = i + (k+1) := by omega
      rw [hx]
      exact hretry (k+1) (by omega)
    have hok' : plainOk (env ((i+1)+n)) := by
      have hx : (i+1)+n = i + (n+1) := by omega
      rw [hx]
      exact hok
    have hb : min (backoffSeq j * 2) 30 = backoffSeq (j+1) := rfl
    obtain ⟨hs, t, ht⟩ := ih (i+1) (j+1) (now + backoffSeq j)
      hretry' hok'
    constructor
    · show backoffSeq j :: sleeps (run env (n+1) (now + backoffSeq j) (i+1)
        (min (backoffSeq j * 2) 30)).1 = _
      rw [hb, hs, List.range_succ_eq_map, List.map_cons, List.map_map]
      congr 1
      apply List.map_congr_left
      intro k _
      simp only [Function.comp_apply]
      congr 1
      omega
    · refine ⟨t, ?_⟩
      show (run env (n+1) (now + backoffSeq j) (i+1) (min (backoffSeq j * 2) 30)).2 = _
      rw [hb, ht]
      have hx : i + 1 + n = i + (n + 1) := by omega
      rw [hx]

/-- C4 (amended): on statuses 429/502/503/504 the client retries with
sleeps `backoffSeq 0, backoffSeq 1, ...` — starting at 1 second, doubling
each retryable attempt, capped at 30 — with no bound on the number of
retries (the statement holds for every `n`); on any status ≥ 400 that is
neither retryable nor the rate-limit 403 case, the call fails immediately
with that status after a single request and no sleep.  (The claim's
"any other non-2xx status" is wrong: `raise_for_status` fires only for
status ≥ 400, see the counterexample at status 304.) -/
theorem retry_backoff_and_fail_fast :
    (∀ (n : Nat) (env : Nat → Resp) (now : Int),
      (∀ k, k < n → (env k).status ∈ retrySet) → plainOk (env n) →
      sleeps (run env (n+1) now 0 1).1 = (List.range n).map backoffSeq ∧
      ∃ t, (run env (n+1) now 0 1).2 = some (.ok (env n).body t)) ∧
    (∀ (env : Nat → Resp) (fuel : Nat) (now : Int) (i : Nat) (b : Int),
      rlCond (env i) = false → (env i).status ∉ retrySet → 400 ≤ (env i).status →
      run env (fuel+1) now i b =
        ([.acquire, .send i now, .release], some (.httpError (env i).status now))) := by
  constructor
  · intro n env now hretry hok
    have h1 : backoffSeq 0 = 1 := rfl
    obtain ⟨hs, ht⟩ := run_backoff_sleeps env n 0 0 now
      (by intro k hk; simpa using hretry k hk) (by simpa using hok)
    rw [h1] at hs ht
    refine ⟨?_, by simpa using ht⟩
    rw [hs]
    apply List.map_congr_left
    intro k _
    simp
  · intro env fuel now i b hrl hretry h400
    rw [run]
    rw [if_neg (by simp [hrl]), if_neg hretry, if_pos h400]

/-- A constant environment answering 304 Not Modified: a non-2xx status
that is neither retried nor an error for `raise_for_status`. -/
def env304 : Nat → Resp := fun _ =>
  { status := 304, remaining := none, reset := none, body := 7 }

/-- C4 counterexample: on status 304 — a non-2xx status other than the
rate-limit 403 and the retryable set — the call does NOT fail: the body is
parsed and returned, because `resp.raise_for_status()` raises only for
status ≥ 400. -/
theorem non2xx_below_400_not_failed :
    (run env304 1 0 0 1).2 = some (.ok 7 0) ∧
    (run env304 1 0 0 1).2 ≠ some (.httpError 304 0) := by
  decide

/-- Two 502 responses followed by a success. -/
def env502 : Nat → Resp := fun k =>
  if k < 2 then { status := 502, remaining := none, reset := none, body := 0 }
  else { status := 200, remaining := none, reset := none, body := 11 }

/-- A plain 404 response. -/
def env404 : Nat → Resp := fun _ =>
  { status := 404, remaining := none, reset := none, body := 0 }

theorem retry_backoff_and_fail_fast_witness :
    (sleeps (run env502 3 0 0 1).1 = [1, 2] ∧
      ∃ t, (run env502 3 0 0 1).2 = some (.ok 11 t)) ∧
    run env404 1 0 0 1 =
      ([.acquire, .send 0 0, .release], some (.httpError 404 0)) := by
  constructor
  · have h := retry_backoff_and_fail_fast.1 2 env502 0 (by decide) (by decide)
    refine ⟨?_, h.2⟩
    rw [h.1]
    decide
  · exact retry_backoff_and_fail_fast.2 env404 0 0 0 1 (by decide) (by decide)
      (by decide)

/-- Trace well-scopedness: starting released, `acquire` only when not
held, `release` exactly when held, and `send`/`sleep`/`readBody` only
while held; the trace must end released. -/
def wellScoped : Bool → List Ev → Bool
  | false, [] => true
  | false, .acquire :: r => wellScoped true r
  | true, .release :: r => wellScoped false r
  | true, .send _ _ :: r => wellScoped true r
  | true, .sleep _ :: r => wellScoped true r
  | true, .readBody :: r => wellScoped true r
  | _, _ => false

/-- Does some sleep event occur while the semaphore is held? -/
def heldSleep : Bool → List Ev → Bool
  | _, [] => false
  | _, .acquire :: r => heldSleep true r
  | _, .release :: r => heldSleep false r
  | held, .sleep _ :: r => held || heldSleep held r
  | held, .send _ _ :: r => heldSleep held r
  | held, .readBody :: r => heldSleep held r

/-- C5 (amended): every trace of the request loop is well-scoped — the
permit is acquired before each send, every event of an attempt (the send,
any backoff or rate-limit sleep, the body read) happens while the permit
is held, and the permit is released at the end of the attempt on every
path (retry, error, success), so it is never held between attempts nor
across separate calls such as successive pagination pages.  (Contrary
to the claim, it is NOT released as soon as status and headers are
available: the sleeps and the body read happen inside the scope, see the
counterexample.) -/
theorem semaphore_well_scoped (env : Nat → Resp) :
    ∀ (fuel : Nat) (now : Int) (i : Nat) (b : Int),
      wellScoped false (run env fuel now i b).1 = true := by
  intro fuel
  induction fuel with
  | zero => intro now i b; rfl
  | succ fuel ih =>
    intro now i b
    rw [run]
    by_cases hrl : rlCond (env i)
    · simp only [hrl, if_true]
      simpa [wellScoped] using ih (now + max 0 ((env i).reset.getD 0 - now + 1)) (i+1) b
    · by_cases hretry : (env i).status ∈ retrySet
      · simp only [hrl, Bool.false_eq_true, if_false, hretry, if_true]
        simpa [wellScoped] using ih (now + b) (i+1) (min (b * 2) 30)
      · by_cases h400 : 400 ≤ (env i).status
        · simp only [hrl, Bool.false_eq_true, if_false, hretry, h400, if_true]
          rfl
        · simp only [hrl, Bool.false_eq_true, if_false, hretry, h400]
          rfl

/-- A 429 response followed by a success. -/
def env429 : Nat → Resp := fun k =>
  if k = 0 then { status := 429, remaining := none, reset := none, body := 0 }
  else { status := 200, remaining := none, reset := none, body := 9 }

/-- C5 counterexample: with a 429 then a success, the backoff sleep occurs
strictly inside a held semaphore scope — the permit IS held while the
client sleeps, contrary to the claim that it is released once the status
and headers are available. -/
theorem sleep_while_semaphore_held :
    heldSleep false (run env429 2 0 0 1).1 = true := by
  decide


/-- A query-parameter value: the base params carry strings
(`{"type": "all", "sort": "updated"}`), `per_page`/`page` are ints. -/
inductive PVal where
  | s (v : String)
  | n (v : Int)
deriving DecidableEq

/-- Query parameters as an insertion-ordered dict. -/
abbrev Params := List (String × PVal)

/-- Python `dict.update` for one key: overwrite the value in place when the
key exists, otherwise append the pair. -/
def dictSet (d : Params) (k : String) (v : PVal) : Params :=
  if d.any (fun p => p.1 == k) then
    d.map (fun p => if p.1 == k then (k, v) else p)
  else d ++ [(k, v)]

/-- `merged = dict(params or {}); merged.update({"per_page": 100, "page": page})`
(`github_client.py` lines 63-64). -/
def mergedParams (base : Params) (page : Nat) : Params :=
  dictSet (dictSet base "per_page" (.n 100)) "page" (.n page)

/-- A page response body: a JSON array of records, a JSON object with an
optional `items` field, or anything else.  Records are abstracted to
integers. -/
inductive PageData where
  | arr (items : List Int)
  | obj (items : Option (List Int))
  | other
deriving DecidableEq

/-- Record-list extraction (`github_client.py` lines 66-70): an array is
used directly; a dict contributes its `items` field defaulting to empty;
anything else yields empty. -/
def extractItems : PageData → List Int
  | .arr l => l
  | .obj (some l) => l
  | .obj none => []
  | .other => []

/-- The `_paginate` loop (`github_client.py` lines 59-75), fueled: fetch
page `page` with the merged params, stop with the accumulated items when
the page is empty, else append and continue with `page+1`. -/
def paginate (fetch : Params → PageData) (base : Params) :
    Nat → Nat → List Int → Option (List Int)
  | 0, _, _ => none
  | fuel+1, page, items =>
    let pageItems := extractItems (fetch (mergedParams base page))
    if pageItems.isEmpty then some items
    else paginate fetch base fuel (page+1) (items ++ pageItems)

/-- `_paginate` proper: starts at page 1 with an empty accumulator. -/
def paginateAll (fetch : Params → PageData) (base : Params) (fuel : Nat) :
    Option (List Int) :=
  paginate fetch base fuel 1 []

/-- The record list of page `k` as the client sees it. -/
def pageOf (fetch : Params → PageData) (base : Params) (k : Nat) : List Int :=
  extractItems (fetch (mergedParams base k))

theorem paginate_from (fetch : Params → PageData) (base : Params) (N : Nat)
    (hempty : pageOf fetch base N = [])
    (hfull : ∀ k, 1 ≤ k → k < N → pageOf fetch base k ≠ []) :
    ∀ (m p : Nat) (acc : List Int) (fuel : Nat), p + m = N → 1 ≤ p → m + 1 ≤ fuel →
      paginate fetch base fuel p acc =
        some (acc ++ ((List.range m).map (fun j => pageOf fetch base (p+j))).flatten) := by
  intro m
  induction m with
  | zero =>
    intro p acc fuel hpN hp hfuel
    cases fuel with
    | zero => omega
    | succ f =>
      rw [paginate]
      have hpe : pageOf fetch base p = [] := by
        rw [Nat.add_zero] at hpN
        rw [hpN]
        exact hempty
      rw [if_pos (by simp [pageOf] at hpe; simp [hpe])]
      simp
  | succ m ih =>
    intro p acc fuel hpN hp hfuel
    cases fuel with
    | zero => omega
    | succ f =>
      rw [paginate]
      have hne : pageOf fetch base p ≠ [] := hfull p hp (by omega)
      rw [if_neg (by simpa [pageOf, List.isEmpty_iff] using hne)]
      have := ih (p+1) (acc ++ pageOf fetch base p) f (by omega) (by omega) (by omega)
      have hmap : (List.range m).map ((fun j => pageOf fetch base (p+j)) ∘ Nat.succ) =
          (List.range m).map (fun j => pageOf fetch base (p+1+j)) := by
        apply List.map_congr_left
        intro k _
        simp only [Function.comp_apply]
        congr 1
        omega
      rw [show extractItems (fetch (mergedParams base p)) = pageOf fetch base p from rfl,
        this, List.range_succ_eq_map, List.map_cons, List.map_map, hmap,
        List.flatten_cons, Nat.add_zero, List.append_assoc]
      rfl

/-- C2: pagination starts at page 1 with fixed page size 100, merging the
page/size parameters into the base parameters on each iteration; it stops
at the first page whose extracted record list is empty (array used
directly, object's `items` field defaulting to empty) and returns the
concatenation of all prior pages' records in request order, whose length
is the sum of the per-page record counts. -/
theorem paginate_collects (fetch : Params → PageData) (base : Params) (N : Nat)
    (hN : 1 ≤ N) (hempty : pageOf fetch base N = [])
    (hfull : ∀ k, 1 ≤ k → k < N → pageOf fetch base k ≠ []) :
    ∀ fuel, N ≤ fuel →
      paginateAll fetch base fuel =
        some (((List.range (N-1)).map (fun j => pageOf fetch base (1+j))).flatten) ∧
      (((List.range (N-1)).map (fun j => pageOf fetch base (1+j))).flatten).length =
        ((List.range (N-1)).map (fun j => (pageOf fetch base (1+j)).length)).sum := by
  intro fuel hfuel
  constructor
  · have := paginate_from fetch base N hempty hfull (N-1) 1 [] fuel
      (by omega) (by omega) (by omega)
    simpa [paginateAll] using this
  · rw [List.length_flatten, List.map_map]
    rfl

/-- A concrete paginated endpoint: page 1 holds two records, page 2 one
record, page 3 is empty. -/
def wfetch : Params → PageData := fun ps =>
  match ps.lookup "page" with
  | some (.n 1) => .arr [10, 11]
  | some (.n 2) => .obj (some [12])
  | _ => .arr []

theorem paginate_collects_witness :
    paginateAll wfetch [] 3 = some [10, 11, 12] := by
  have h := (paginate_collects wfetch [] 3 (by decide) (by decide)
    (by intro k h1 h3; interval_cases k <;> decide) 3 (by decide)).1
  rw [h]
  decide

end Client

namespace MainMod

/-- Days-since-epoch to proleptic-Gregorian civil date (year, month, day),
the date computed by `datetime.utcfromtimestamp(...).date()` in
`fetch_commit_activity` (`main.py` line 136).  Floor division keeps the
algorithm valid for every (also negative) day count. -/
def civilFromDays (z : Int) : Int × Int × Int :=
  let zs := z + 719468
  let era := zs.fdiv 146097
  let doe := zs - era * 146097
  let yoe := (doe - doe.fdiv 1460 + doe.fdiv 36524 - doe.fdiv 146096).fdiv 365
  let y := yoe + era * 400
  let doy := doe - (365 * yoe + yoe.fdiv 4 - yoe.fdiv 100)
  let mp := (5 * doy + 2).fdiv 153
  let d := doy - (153 * mp + 2).fdiv 5 + 1
  let m := mp + (if mp < 10 then 3 else -9)
  (y + (if m ≤ 2 then 1 else 0), m, d)

/-- Zero-padded two-digit rendering of a month or day. -/
def pad2 (n : Int) : String :=
  if n < 10 then "0" ++ toString n else toString n

/-- Zero-padded four-digit rendering of a year. -/
def pad4 (n : Int) : String :=
  if n < 10 then "000" ++ toString n
  else if n < 100 then "00" ++ toString n
  else if n < 1000 then "0" ++ toString n
  else toString n

/-- `datetime.utcfromtimestamp(secs).date().isoformat()`: the UTC calendar
date of a Unix timestamp, rendered `YYYY-MM-DD`. -/
def epochToDateISO (secs : Int) : String :=
  let ymd := civilFromDays (secs.fdiv 86400)
  pad4 ymd.1 ++ "-" ++ pad2 ymd.2.1 ++ "-" ++ pad2 ymd.2.2

/-- Spot checks of the date conversion against reference values of
`datetime.utcfromtimestamp(...).date().isoformat()`, including leap days
and the century rule. -/
theorem epochToDateISO_spot_checks :
    epochToDateISO 0 = "1970-01-01" ∧
    epochToDateISO 86399 = "1970-01-01" ∧
    epochToDateISO 86400 = "1970-01-02" ∧
    epochToDateISO 604800 = "1970-01-08" ∧
    epochToDateISO 951782400 = "2000-02-29" ∧
    epochToDateISO 1704067200 = "2024-01-01" ∧
    epochToDateISO 1709164800 = "2024-02-29" ∧
    epochToDateISO 4107542400 = "2100-03-01" := by
  decide

/-- A raw commit-activity week entry (`{week: epoch_seconds, total: int}`). -/
structure RawWeek where
  week : Int
  total : Int
deriving DecidableEq

/-- One normalized commit-activity item handed to
`db.upsert_commit_activity`. -/
structure CAItem where
  repo_id : Nat
  week_start : String
  total : Int
deriving DecidableEq

/-- The per-repository post-processing loop of `fetch_commit_activity`
(`main.py` lines 131-141): each raw week's timestamp becomes a UTC
calendar date, items are collected in the raw (API) order.  The
`try/except` that skips unparseable entries never fires for entries with
integer fields. -/
def commitActivityItems (rid : Nat) (weeks : List RawWeek) : List CAItem :=
  weeks.map (fun w =>
    { repo_id := rid, week_start := epochToDateISO w.week, total := w.total })

/-- Two raw weeks in API order: 1970-01-01 then 1970-01-08. -/
def weeksW : List RawWeek := [⟨0, 5⟩, ⟨604800, 7⟩]

/-- C8 counterexample: the sequence handed to storage keeps the API order;
it is NOT the reverse of the converted API sequence, contrary to the
claim. -/
theorem commit_activity_not_reversed :
    commitActivityItems 1 weeksW =
      [⟨1, "1970-01-01", 5⟩, ⟨1, "1970-01-08", 7⟩] ∧
    commitActivityItems 1 weeksW ≠
      (weeksW.map (fun w =>
        ({ repo_id := 1, week_start := epochToDateISO w.week,
           total := w.total } : CAItem))).reverse := by
  decide

/-- C8 (amended): each raw week entry's Unix week-start timestamp is
converted to a UTC calendar date, and the per-repository sequence handed
to storage preserves the API order — same length, the i-th stored item is
the conversion of the i-th raw entry; it is not reversed.  (The GitHub
commit-activity endpoint returns weeks oldest-first, so storage receives
oldest-week-first without a reversal.) -/
theorem commit_activity_order_preserved (rid : Nat) (weeks : List RawWeek)
    (i : Nat) (h : i < weeks.length) :
    (commitActivityItems rid weeks).length = weeks.length ∧
    (commitActivityItems rid weeks).get ⟨i, by simpa [commitActivityItems] using h⟩ =
      { repo_id := rid, week_start := epochToDateISO (weeks.get ⟨i, h⟩).week,
        total := (weeks.get ⟨i, h⟩).total } := by
  constructor
  · simp [commitActivityItems]
  · simp [commitActivityItems]

theorem commit_activity_order_preserved_witness :
    (commitActivityItems 1 weeksW).length = weeksW.length ∧
    (commitActivityItems 1 weeksW).get ⟨1, by decide⟩ =
      { repo_id := 1, week_start := epochToDateISO (weeksW.get ⟨1, by decide⟩).week,
        total := (weeksW.get ⟨1, by decide⟩).total } :=
  commit_activity_order_preserved 1 weeksW 1 (by decide)

end MainMod

namespace Db

/-- One row of the `languages` table (`db.py` lines 102-108). -/
structure LangRow where
  repo_id : Nat
  language : String
  bytes : Int
deriving DecidableEq

/-- One row of the `contributors` table (`db.py` lines 110-116). -/
structure ContribRow where
  repo_id : Nat
  login : Option String
  contributions : Int
deriving DecidableEq

/-- One row of the `commit_activity` table (`db.py` lines 128-134). -/
structure CARow where
  repo_id : Nat
  week_start : String
  total : Int
deriving DecidableEq

/-- One row of the `pull_requests` table (`db.py` lines 136-145). -/
structure PRRow where
  repo_id : Nat
  number : Int
  state : Option String
  created_at : Option String
  merged_at : Option String
  closed_at : Option String
deriving DecidableEq

/-- An `extra_json` payload.  Every payload the aggregator writes is a
JSON array/object of (string-or-null, integer) entries: the top-10 list
(`full_name` may be SQL NULL, star count), the commit series (week-start
date, commits) and the PR-state mapping (state label, count). -/
abbrev Extra := List (Option String × Int)

/-- One row of the `aggregates` table (`db.py` lines 118-125).  `value` is
an SQL REAL, but every value written is an integral count or sum, modelled
exactly by `Int`. -/
structure AggRow where
  metric : String
  key : Option String
  value : Int
  computed_at : Nat
  extra : Option Extra
deriving DecidableEq

/-- The whole namespaced store.  All six tables exist from the start:
`Database.__init__` always runs `init_schema` (`db.py` line 27). -/
structure Store where
  repositories : List RepoRow
  languages : List LangRow
  contributors : List ContribRow
  commit_activity : List CARow
  pull_requests : List PRRow
  aggregates : List AggRow
deriving DecidableEq

/-- `Database.transaction` (`db.py` lines 63-70): on success the new state
is committed; when a statement raises, the whole transaction is rolled
back and the store is left exactly as before the call. -/
def withTransaction (f : Store → Option Store) (db : Store) : Store :=
  match f db with
  | some db' => db'
  | none => db

/-- One input item of `upsert_languages`: `{"repo_id": ..., "languages":
{lang: bytes, ...}}` (`main.py` line 104). -/
structure LangItem where
  repo_id : Nat
  languages : List (String × Int)
deriving DecidableEq

/-- The row list built by the Python loop in `upsert_languages`
(`db.py` lines 211-215). -/
def langRows (items : List LangItem) : List (Nat × String × Int) :=
  (items.map (fun it => it.languages.map (fun p => (it.repo_id, p.1, p.2)))).flatten

/-- SQLite upsert of one language row
(`ON CONFLICT(repo_id, language) DO UPDATE SET bytes=excluded.bytes`). -/
def upsertLangRow (t : List LangRow) (row : Nat × String × Int) : List LangRow :=
  if t.any (fun x => x.repo_id == row.1 && x.language == row.2.1) then
    t.map (fun x =>
      if x.repo_id == row.1 && x.language == row.2.1 then
        { x with bytes := row.2.2 }
      else x)
  else t ++ [{ repo_id := row.1, language := row.2.1, bytes := row.2.2 }]

/-- One INSERT of the `executemany` under `PRAGMA foreign_keys=ON`
(`db.py` line 57): the row must reference an existing repository row,
otherwise the statement raises and the surrounding transaction rolls
back. -/
def applyLangRow (db : Store) (row : Nat × String × Int) : Option Store :=
  if db.repositories.any (fun x => x.repo_id == row.1) then
    some { db with languages := upsertLangRow db.languages row }
  else none

/-- `Database.upsert_languages` (`db.py` lines 210-223): expand the rows,
then run the whole batch inside one transaction. -/
def upsert_languages (items : List LangItem) (db : Store) : Store :=
  withTransaction (fun d => (langRows items).foldlM applyLangRow d) db

theorem foldlM_lang_all (rows : List (Nat × String × Int)) :
    ∀ db : Store,
      (∀ row ∈ rows, db.repositories.any (fun x => x.repo_id == row.1) = true) →
      rows.foldlM applyLangRow db =
        some { db with languages := rows.foldl upsertLangRow db.languages } := by
  induction rows with
  | nil => intro db _; rfl
  | cons r rows ih =>
    intro db hok
    have hr : db.repositories.any (fun x => x.repo_id == r.1) = true :=
      hok r (List.mem_cons_self r rows)
    have step : applyLangRow db r =
        some { db with languages := upsertLangRow db.languages r } := by
      simp [applyLangRow, hr]
    rw [List.foldlM_cons, step]
    simp only [Option.bind_eq_bind, Option.some_bind]
    exact ih _ (fun row hrow => hok row (List.mem_cons_of_mem r hrow))

theorem foldlM_lang_fail (rows : List (Nat × String × Int)) :
    ∀ db : Store,
      (∃ row ∈ rows, ¬ db.repositories.any (fun x => x.repo_id == row.1) = true) →
      rows.foldlM applyLangRow db = none := by
  induction rows with
  | nil => intro db h; simp at h
  | cons r rows ih =>
    intro db h
    by_cases hr : db.repositories.any (fun x => x.repo_id == r.1) = true
    · have step : applyLangRow db r =
          some { db with languages := upsertLangRow db.languages r } := by
        simp [applyLangRow, hr]
      rw [List.foldlM_cons, step]
      simp only [Option.bind_eq_bind, Option.some_bind]
      apply ih
      obtain ⟨row, hmem, hbad⟩ := h
      rcases List.mem_cons.mp hmem with rfl | hmem'
      · exact absurd hr hbad
      · exact ⟨row, hmem', hbad⟩
    · have step : applyLangRow db r = none := by
        simp only [applyLangRow]
        rw [if_neg hr]
      rw [List.foldlM_cons, step]
      rfl

/-- C6: bulk writes are atomic.  The `Database.transaction` context
manager commits the batch's resulting state on success and rolls back to
the pre-call state when any statement raises; instantiated on
`upsert_languages`: when every row of the batch satisfies the foreign-key
constraint the whole batch is applied in order, and when any row violates
it the store is left exactly as before the call — no partially-applied
writes. -/
theorem bulk_writes_atomic :
    (∀ (f : Store → Option Store) (db : Store),
      (f db = none → withTransaction f db = db) ∧
      (∀ db', f db = some db' → withTransaction f db = db')) ∧
    (∀ (items : List LangItem) (db : Store),
      (∀ row ∈ langRows items,
          db.repositories.any (fun x => x.repo_id == row.1) = true) →
      upsert_languages items db =
        { db with languages := (langRows items).foldl upsertLangRow db.languages }) ∧
    (∀ (items : List LangItem) (db : Store),
      (∃ row ∈ langRows items,
          ¬ db.repositories.any (fun x => x.repo_id == row.1) = true) →
      upsert_languages items db = db) := by
  refine ⟨?_, ?_, ?_⟩
  · intro f db
    constructor
    · intro hf
      simp [withTransaction, hf]
    · intro db' hf
      simp [withTransaction, hf]
  · intro items db hok
    unfold upsert_languages withTransaction
    simp only []
    rw [foldlM_lang_all (langRows items) db hok]
  · intro items db hbad
    unfold upsert_languages withTransaction
    simp only []
    rw [foldlM_lang_fail (langRows items) db hbad]

/-- A store holding exactly the repository `rawA`. -/
def storeW : Store :=
  { repositories := [toRow rawA], languages := [], contributors := []
    commit_activity := [], pull_requests := [], aggregates := [] }

/-- A language batch for repository 1 (mirrors the fixture in
`src/tests/test_aggregator.py`). -/
def langItemsW : List LangItem := [⟨1, [("Python", 1000), ("C", 10)]⟩]

theorem bulk_writes_atomic_witness :
    upsert_languages langItemsW storeW =
      { storeW with
        languages := (langRows langItemsW).foldl upsertLangRow storeW.languages } :=
  bulk_writes_atomic.2.1 langItemsW storeW (by decide)

end Db

namespace Agg

open Db

/-- The SQLite conflict test behind `upsert_aggregate`'s
`ON CONFLICT(metric, key)` target: an existing row conflicts only when it
agrees on `metric` and on a non-NULL `key`.  SQL NULL compares unequal to
everything — including another NULL — in the `PRIMARY KEY (metric, key)`
unique index, so a row inserted with a NULL key never conflicts and a
plain INSERT happens instead (checked against SQLite's documented
treatment of NULLs in unique indexes). -/
def aggConflicts (metric : String) (key : Option String) (r : AggRow) : Bool :=
  match key with
  | none => false
  | some k => r.metric == metric && r.key == some k

/-- `Database.upsert_aggregate` (`db.py` lines 240-255). -/
def upsert_aggregate (metric : String) (key : Option String) (value : Int)
    (extra : Option Extra) (now : Nat) (db : Store) : Store :=
  if db.aggregates.any (aggConflicts metric key) then
    { db with aggregates := db.aggregates.map (fun r =>
        if aggConflicts metric key r then
          { r with value := value, computed_at := now, extra := extra }
        else r) }
  else
    { db with aggregates := db.aggregates ++
        [{ metric := metric, key := key, value := value, computed_at := now,
           extra := extra }] }

/-- Lexicographic strict comparison of code-point lists — SQLite compares
TEXT values byte-wise (memcmp), which on UTF-8 equals code-point
lexicographic order. -/
def natListLt : List Nat → List Nat → Bool
  | [], [] => false
  | [], _ :: _ => true
  | _ :: _, [] => false
  | a :: as, b :: bs =>
    if a < b then true
    else if b < a then false
    else natListLt as bs

/-- The code points of a string. -/
def strKey (s : String) : List Nat := s.data.map Char.toNat

/-- SQLite TEXT `<`. -/
def strLt (a b : String) : Bool := natListLt (strKey a) (strKey b)

/-- SQLite TEXT `≤`. -/
def strLe (a b : String) : Bool := !(strLt b a)

/-- `SELECT COALESCE(SUM(stargazers_count),0)` (`aggregator.py` line 21):
SUM skips NULLs, an all-NULL/empty sum coalesces to 0. -/
def sumStars (db : Store) : Int :=
  (db.repositories.map (fun r => r.stargazers_count.getD 0)).sum

/-- The distinct non-null languages (`GROUP BY language` under
`WHERE language IS NOT NULL`), in ascending name order — the model's
fixed grouping order; SQL leaves the relative order of equal-sum groups
unspecified. -/
def distinctLangs (db : Store) : List String :=
  List.insertionSort (fun a b => strLe a b = true)
    ((db.repositories.filterMap (fun r => r.language)).dedup)

/-- One language group's star sum. -/
def starsOfLang (db : Store) (l : String) : Int :=
  ((db.repositories.filter (fun r => r.language == some l)).map
    (fun r => r.stargazers_count.getD 0)).sum

/-- One language group's fork sum. -/
def forksOfLang (db : Store) (l : String) : Int :=
  ((db.repositories.filter (fun r => r.language == some l)).map
    (fun r => r.forks_count.getD 0)).sum

/-- The language groups in `ORDER BY stars DESC` order
(`aggregator.py` lines 26-34). -/
def langsByStars (db : Store) : List String :=
  List.insertionSort (fun a b => starsOfLang db b ≤ starsOfLang db a)
    (distinctLangs db)

/-- The language groups in `ORDER BY forks DESC` order
(`aggregator.py` lines 39-47). -/
def langsByForks (db : Store) : List String :=
  List.insertionSort (fun a b => forksOfLang db b ≤ forksOfLang db a)
    (distinctLangs db)

/-- SQL `≤` on a nullable integer column: NULL sorts below every value. -/
def optIntLe : Option Int → Option Int → Bool
  | none, _ => true
  | some _, none => false
  | some x, some y => x ≤ y

/-- SQL `≤` on a nullable text column: NULL sorts below every value. -/
def optStrLe : Option String → Option String → Bool
  | none, _ => true
  | some _, none => false
  | some x, some y => strLe x y

/-- `ORDER BY stargazers_count DESC, full_name ASC` (SQL NULLs smallest:
last under DESC, first under ASC). -/
def topOrder (a b : RepoRow) : Bool :=
  if a.stargazers_count == b.stargazers_count then optStrLe a.full_name b.full_name
  else optIntLe b.stargazers_count a.stargazers_count

/-- The `LIMIT 10` rows of the top-star query (`aggregator.py`
lines 52-59). -/
def topRows (db : Store) : List RepoRow :=
  (List.insertionSort (fun a b => topOrder a b = true) db.repositories).take 10

/-- The `top_repos_by_stars` payload (`aggregator.py` line 60):
`int(r[1])` raises TypeError when a selected row's star count is SQL
NULL — `Option.map` models the conversion, `mapM` propagates the
exception. -/
def topExtra (db : Store) : Option Extra :=
  (topRows db).mapM (fun r => r.stargazers_count.map (fun s => (r.full_name, s)))

/-- Distinct week-start dates, string-descending (`GROUP BY week_start
ORDER BY week_start DESC`; ISO dates compare chronologically). -/
def weeksDesc (db : Store) : List String :=
  List.insertionSort (fun a b : String => strLe b a = true)
    ((db.commit_activity.map (fun r => r.week_start)).dedup)

/-- `SUM(total)` of one week-start group across all repositories. -/
def weekSum (db : Store) (w : String) : Int :=
  ((db.commit_activity.filter (fun r => r.week_start == w)).map
    (fun r => r.total)).sum

/-- The `dora_commits_by_week` series: the 26 most recent distinct
week-start groups (`LIMIT 26` on the DESC query), reversed to oldest
first (`[::-1]`, `aggregator.py` lines 68-81). -/
def doraSeries (db : Store) : List (String × Int) :=
  (((weeksDesc db).take 26).map (fun w => (w, weekSum db w))).reverse

/-- Distinct PR states (`GROUP BY state`), SQL NULL group first. -/
def prStates (db : Store) : List (Option String) :=
  List.insertionSort (fun a b => optStrLe a b = true)
    ((db.pull_requests.map (fun r => r.state)).dedup)

/-- `r[0] or "unknown"`: SQL NULL — and the empty string, which is falsy
in Python — both map to the literal label "unknown". -/
def stateLabel : Option String → String
  | none => "unknown"
  | some s => if s == "" then "unknown" else s

/-- `COUNT(*)` of one state group. -/
def prCount (db : Store) (st : Option String) : Int :=
  ((db.pull_requests.filter (fun r => r.state == st)).length : Int)

/-- The `dora_prs_total` payload: state label → count
(`aggregator.py` line 93). -/
def prTotals (db : Store) : Extra :=
  (prStates db).map (fun st => (some (stateLabel st), prCount db st))

/-- `compute_aggregates` (`aggregator.py` lines 11-95): the seven upserts
in program order, each reading the untouched non-aggregate tables.  The
`sqlite_master` existence check for the two DORA tables always passes
because `Database.__init__` runs `init_schema`, so both DORA metrics are
computed unconditionally.  The result is `none` when the Python raises —
the only raising spot in this model is `int(r[1])` on a NULL star count
while building the top-10 payload; the claims below quantify over
completed runs, so the partial state carried alongside the exception is
not modelled further. -/
def compute_aggregates (now : Nat) (db : Store) : Option Store :=
  let db1 := upsert_aggregate "total_repos" none (db.repositories.length : Int)
    none now db
  let db2 := upsert_aggregate "total_stars" none (sumStars db) none now db1
  let db3 := (langsByStars db).foldl (fun d l =>
    upsert_aggregate "stars_by_language" (some l) (starsOfLang db l) none now d) db2
  let db4 := (langsByForks db).foldl (fun d l =>
    upsert_aggregate "forks_by_language" (some l) (forksOfLang db l) none now d) db3
  match topExtra db with
  | none => none
  | some top =>
    let db5 := upsert_aggregate "top_repos_by_stars" none (top.length : Int)
      (some top) now db4
    let series := doraSeries db
    let db6 := upsert_aggregate "dora_commits_by_week" none (series.length : Int)
      (some (series.map (fun p => (some p.1, p.2)))) now db5
    let totals := prTotals db
    let db7 := upsert_aggregate "dora_prs_total" none
      ((totals.map (fun p => p.2)).sum) (some totals) now db6
    some db7

/-- The store of a fresh namespace: all six tables created, no rows. -/
def emptyStore : Store :=
  { repositories := [], languages := [], contributors := []
    commit_activity := [], pull_requests := [], aggregates := [] }

end Agg

namespace Agg

open Db

theorem natListLt_asymm : ∀ as bs, natListLt as bs = true → natListLt bs as = false := by
  intro as
  induction as with
  | nil =>
    intro bs h
    cases bs with
    | nil => simp [natListLt] at h
    | cons b bs => simp [natListLt]
  | cons a as ih =>
    intro bs h
    cases bs with
    | nil => simp [natListLt] at h
    | cons b bs =>
      by_cases h1 : a < b
      · simp [natListLt, (show ¬ b < a by omega), h1]
      · by_cases h2 : b < a
        · simp [natListLt, h1, h2] at h
        · simp only [natListLt, if_neg h1, if_neg h2] at h
          simp only [natListLt, if_neg h1, if_neg h2]
          exact ih bs h

theorem natListLt_trans :
    ∀ as bs cs, natListLt as bs = true → natListLt bs cs = true →
      natListLt as cs = true := by
  intro as
  induction as with
  | nil =>
    intro bs cs h1 h2
    cases bs with
    | nil => simp [natListLt] at h1
    | cons b bs =>
      cases cs with
      | nil => simp [natListLt] at h2
      | cons c cs => simp [natListLt]
  | cons a as ih =>
    intro bs cs h1 h2
    cases bs with
    | nil => simp [natListLt] at h1
    | cons b bs =>
      cases cs with
      | nil => simp [natListLt] at h2
      | cons c cs =>
        simp only [natListLt] at h1 h2 ⊢
        by_cases hab : a < b
        · by_cases hbc : b < c
          · rw [if_pos (by omega)]
          · by_cases hcb : c < b
            · simp [hbc, hcb] at h2
            · rw [if_pos (by omega)]
        · by_cases hba : b < a
          · simp [hab, hba] at h1
          · by_cases hbc : b < c
            · rw [if_pos (by omega)]
            · by_cases hcb : c < b
              · simp [hbc, hcb] at h2
              · rw [if_neg hab] at h1
                rw [if_neg hbc] at h2
                rw [if_neg (by omega), if_neg (by omega)]
                rw [if_neg hba] at h1
                rw [if_neg hcb] at h2
                exact ih bs cs h1 h2

theorem natListLt_connex :
    ∀ as bs, natListLt as bs = false → natListLt bs as = false → as = bs := by
  intro as
  induction as with
  | nil =>
    intro bs h1 _
    cases bs with
    | nil => rfl
    | cons b bs => simp [natListLt] at h1
  | cons a as ih =>
    intro bs h1 h2
    cases bs with
    | nil => simp [natListLt] at h2
    | cons b bs =>
      by_cases hab : a < b
      · simp [natListLt, hab] at h1
      · by_cases hba : b < a
        · simp [natListLt, hba] at h2
        · simp only [natListLt, if_neg hab, if_neg hba] at h1
          simp only [natListLt, if_neg hba, if_neg hab] at h2
          have : a = b := by omega
          rw [this, ih bs h1 h2]

theorem strKey_inj (a b : String) (h : strKey a = strKey b) : a = b := by
  unfold strKey at h
  have hinj : Function.Injective Char.toNat := StrictMono.injective fun _ _ hc => hc
  have hd : a.data = b.data := List.map_injective_iff.mpr hinj h
  cases a
  cases b
  cases hd
  rfl

theorem weeksDesc_sorted (db : Store) :
    (weeksDesc db).Pairwise (fun a b : String => strLe b a = true) := by
  haveI ht : IsTotal String (fun a b : String => strLe b a = true) := by
    constructor
    intro a b
    by_cases h : natListLt (strKey a) (strKey b) = true
    · right
      simp [strLe, strLt, natListLt_asymm _ _ h]
    · left
      simp only [strLe, strLt, Bool.not_eq_true']
      simpa using h
  haveI htr : IsTrans String (fun a b : String => strLe b a = true) := by
    constructor
    intro a b c hab hbc
    simp only [strLe, strLt, Bool.not_eq_true'] at hab hbc ⊢
    by_contra hac
    rw [Bool.not_eq_false] at hac
    by_cases hba : natListLt (strKey b) (strKey a) = true
    · have := natListLt_trans _ _ _ hba hac
      rw [this] at hbc
      cases hbc
    · have hk : strKey a = strKey b :=
        natListLt_connex _ _ hab (by simpa using hba)
      rw [hk] at hac
      rw [hac] at hbc
      cases hbc
  exact List.sorted_insertionSort _ _

theorem weeksDesc_nodup (db : Store) : (weeksDesc db).Nodup :=
  ((List.perm_insertionSort _ _).nodup_iff).mpr (List.nodup_dedup _)

theorem weeksDesc_strict (db : Store) :
    (weeksDesc db).Pairwise (fun a b : String => strLt b a = true) := by
  have hs := weeksDesc_sorted db
  have hn := weeksDesc_nodup db
  refine (List.Pairwise.and hs hn).imp ?_
  rintro a b ⟨h1, h2⟩
  simp only [strLe, Bool.not_eq_true'] at h1
  by_contra hba
  rw [Bool.not_eq_true] at hba
  exact h2 (strKey_inj a b (natListLt_connex _ _ h1 hba))

end Agg

namespace Agg

open Db

theorem upsert_aggregate_none_append (metric : String) (value : Int)
    (extra : Option Extra) (now : Nat) (db : Store) :
    (upsert_aggregate metric none value extra now db).aggregates =
      db.aggregates ++
        [{ metric := metric, key := none, value := value, computed_at := now,
           extra := extra }] := by
  unfold upsert_aggregate
  rw [if_neg]
  simp [aggConflicts]

theorem upsert_aggregate_preserves (metric : String) (key : Option String)
    (value : Int) (extra : Option Extra) (now : Nat) (db : Store) (r : AggRow)
    (hr : r ∈ db.aggregates) (hnc : aggConflicts metric key r = false) :
    r ∈ (upsert_aggregate metric key value extra now db).aggregates := by
  unfold upsert_aggregate
  by_cases hany : db.aggregates.any (aggConflicts metric key)
  · rw [if_pos hany]
    have hm := List.mem_map_of_mem
      (f := fun x => if aggConflicts metric key x then
        ({ x with value := value, computed_at := now, extra := extra } : AggRow)
      else x) hr
    simpa [hnc] using hm
  · rw [if_neg hany]
    exact List.mem_append_left _ hr

theorem foldl_upsert_preserves (metricN : String) (f : String → Int)
    (now : Nat) (ls : List String) :
    ∀ (db : Store) (r : AggRow), r ∈ db.aggregates →
      (∀ l ∈ ls, aggConflicts metricN (some l) r = false) →
      r ∈ (ls.foldl (fun d l =>
        upsert_aggregate metricN (some l) (f l) none now d) db).aggregates := by
  induction ls with
  | nil => intro db r hr _; exact hr
  | cons l ls ih =>
    intro db r hr hnc
    rw [List.foldl_cons]
    exact ih _ r
      (upsert_aggregate_preserves metricN (some l) (f l) none now db r hr
        (hnc l (List.mem_cons_self l ls)))
      (fun l' hl' => hnc l' (List.mem_cons_of_mem l hl'))

/-- C7: the idempotence claim fails against the code.  Every scalar metric
is upserted with SQL key NULL, and the `ON CONFLICT(metric, key)` clause
never fires when the conflict-target column is NULL (SQLite treats NULLs
as pairwise distinct in the `PRIMARY KEY (metric, key)` unique index), so
a second run INSERTs fresh duplicate rows for the five NULL-key metrics
instead of replacing them.  Evaluated from the empty store: one
`total_repos` row after the first run, two after the second — the second
run's aggregate rows are not identical to the first run's. -/
theorem compute_aggregates_duplicates_null_keys :
    (((compute_aggregates 1 emptyStore).getD emptyStore).aggregates.countP
        (fun r => r.metric == "total_repos")) = 1 ∧
    (((compute_aggregates 2 ((compute_aggregates 1 emptyStore).getD emptyStore)).getD
        emptyStore).aggregates.countP (fun r => r.metric == "total_repos")) = 2 := by
  decide

/-- C9 counterexample: on a store whose commit-activity table is empty —
the table itself always exists, since `init_schema` runs on connect — the
`dora_commits_by_week` metric IS produced, with scalar 0 and an empty
payload: the aggregator checks only table existence in `sqlite_master`,
not non-emptiness, so "only if the commit-activity table is non-empty" is
false. -/
theorem dora_emitted_on_empty_table :
    (⟨"dora_commits_by_week", none, 0, 1, some []⟩ : AggRow) ∈
      ((compute_aggregates 1 emptyStore).getD emptyStore).aggregates := by
  decide

/-- C9 (amended): `dora_commits_by_week` is produced on every completed
run, whether or not the commit-activity table has rows (the code tests
table existence, which always holds); its scalar value equals the number
of weeks in the payload, and the payload is the per-week sum of commits
across all repositories restricted to the most recent 26 distinct
week-start values, re-ordered oldest-first (strictly increasing week
starts in SQLite TEXT order, which is chronological for ISO dates). -/
theorem dora_commits_by_week_spec (db : Store) (now : Nat) (db' : Store)
    (h : compute_aggregates now db = some db') :
    ((⟨"dora_commits_by_week", none, ((doraSeries db).length : Int), now,
        some ((doraSeries db).map (fun p => (some p.1, p.2)))⟩ : AggRow) ∈
      db'.aggregates) ∧
    (doraSeries db).length ≤ 26 ∧
    ((doraSeries db).map (fun p => p.1)).Pairwise (fun a b => strLt a b = true) ∧
    (∀ p ∈ doraSeries db, p.2 = weekSum db p.1) := by
  refine ⟨?_, ?_, ?_, ?_⟩
  · unfold compute_aggregates at h
    cases htop : topExtra db with
    | none => rw [htop] at h; cases h
    | some top =>
      rw [htop] at h
      have hdb := (Option.some.inj h).symm
      subst hdb
      rw [upsert_aggregate_none_append]
      apply List.mem_append_left
      rw [upsert_aggregate_none_append]
      apply List.mem_append_right
      simp
  · unfold doraSeries
    rw [List.length_reverse, List.length_map, List.length_take]
    omega
  · have hstrict := weeksDesc_strict db
    have htake : ((weeksDesc db).take 26).Pairwise
        (fun a b : String => strLt b a = true) :=
      hstrict.sublist (List.take_sublist 26 _)
    have hw : (doraSeries db).map (fun p => p.1) =
        ((weeksDesc db).take 26).reverse := by
      unfold doraSeries
      rw [List.map_reverse, List.map_map,
        show ((fun p : String × Int => p.1) ∘ fun w => (w, weekSum db w)) = id
          from rfl, List.map_id]
    rw [hw, List.pairwise_reverse]
    exact htake
  · intro p hp
    unfold doraSeries at hp
    rw [List.mem_reverse] at hp
    obtain ⟨w, _, rfl⟩ := List.mem_map.mp hp
    rfl

/-- A store with commit activity across two weeks for one repository. -/
def storeCA : Store :=
  { repositories := [toRow rawA], languages := [], contributors := []
    commit_activity := [⟨1, "2024-01-01", 3⟩, ⟨1, "2024-01-08", 4⟩]
    pull_requests := [], aggregates := [] }

theorem dora_commits_by_week_spec_witness :
    ((⟨"dora_commits_by_week", none, ((doraSeries storeCA).length : Int), 5,
        some ((doraSeries storeCA).map (fun p => (some p.1, p.2)))⟩ : AggRow) ∈
      ((compute_aggregates 5 storeCA).getD emptyStore).aggregates) ∧
    (doraSeries storeCA).length ≤ 26 ∧
    ((doraSeries storeCA).map (fun p => p.1)).Pairwise
      (fun a b => strLt a b = true) ∧
    (∀ p ∈ doraSeries storeCA, p.2 = weekSum storeCA p.1) :=
  dora_commits_by_week_spec storeCA 5
    ((compute_aggregates 5 storeCA).getD emptyStore) (by decide)

/-- C10: `compute_aggregates` only upserts aggregate rows and never
deletes any.  Every pre-existing aggregate row that is not a non-NULL-key
write target of the run — in particular any `stars_by_language` or
`forks_by_language` row for a language that no longer appears on any
repository, and any row with a NULL key (NULL-key upserts never conflict
with stored rows) — is still present, with value and payload unchanged,
after a completed run. -/
theorem compute_aggregates_frame (db : Store) (now : Nat) (db' : Store)
    (h : compute_aggregates now db = some db') (r : AggRow)
    (hr : r ∈ db.aggregates)
    (hkeep : ∀ l, r.key = some l → l ∈ distinctLangs db →
      r.metric ≠ "stars_by_language" ∧ r.metric ≠ "forks_by_language") :
    r ∈ db'.aggregates := by
  have hnone : ∀ (metric : String), aggConflicts metric none r = false :=
    fun _ => rfl
  have hsome : ∀ (metric : String), metric = "stars_by_language" ∨
      metric = "forks_by_language" →
      ∀ l ∈ distinctLangs db, aggConflicts metric (some l) r = false := by
    intro metric hm l hl
    by_contra hne
    rw [Bool.not_eq_false] at hne
    simp only [aggConflicts, Bool.and_eq_true, beq_iff_eq] at hne
    obtain ⟨h1, h2⟩ := hne
    rcases hm with hm | hm
    · exact (hkeep l h2 hl).1 (by rw [h1, hm])
    · exact (hkeep l h2 hl).2 (by rw [h1, hm])
  unfold compute_aggregates at h
  cases htop : topExtra db with
  | none => rw [htop] at h; cases h
  | some top =>
    rw [htop] at h
    have hdb := (Option.some.inj h).symm
    subst hdb
    apply upsert_aggregate_preserves _ _ _ _ _ _ _ _ (hnone _)
    apply upsert_aggregate_preserves _ _ _ _ _ _ _ _ (hnone _)
    apply upsert_aggregate_preserves _ _ _ _ _ _ _ _ (hnone _)
    apply foldl_upsert_preserves _ _ _ _ _ _ ?_ ?_
    rotate_left
    · intro l hl
      exact hsome "forks_by_language" (Or.inr rfl) l
        ((List.perm_insertionSort _ _).mem_iff.mp hl)
    apply foldl_upsert_preserves _ _ _ _ _ _ ?_ ?_
    rotate_left
    · intro l hl
      exact hsome "stars_by_language" (Or.inl rfl) l
        ((List.perm_insertionSort _ _).mem_iff.mp hl)
    apply upsert_aggregate_preserves _ _ _ _ _ _ _ _ (hnone _)
    apply upsert_aggregate_preserves _ _ _ _ _ _ _ hr (hnone _)

/-- A stale aggregate row: a `stars_by_language` entry for a language no
current repository uses. -/
def staleRow : AggRow := ⟨"stars_by_language", some "Rust", 7, 0, none⟩

/-- A store whose only repository is Python-labelled, carrying the stale
Rust aggregate row from an earlier state. -/
def storeFrame : Store :=
  { repositories := [toRow rawA], languages := [], contributors := []
    commit_activity := [], pull_requests := [], aggregates := [staleRow] }

theorem compute_aggregates_frame_witness :
    staleRow ∈ ((compute_aggregates 3 storeFrame).getD emptyStore).aggregates := by
  refine compute_aggregates_frame storeFrame 3
    ((compute_aggregates 3 storeFrame).getD emptyStore) (by decide) staleRow
    (by decide) ?_
  intro l hk hm
  have hk2 : some "Rust" = some l := hk
  have hl : "Rust" = l := Option.some.inj hk2
  subst hl
  exact absurd hm (by decide)

end Agg
